import Mathlib

/-!
Verification of the snowpack build pipeline (`src/commands/build.ts`).

The program text is embedded shallowly: JavaScript strings become `List Char`
(so every definition is structural and kernel-reducible), JavaScript's stateful
pipeline becomes explicit state passing, thrown exceptions become `Except`, and
external effects (spawned build processes, dynamically loaded plugins, the file
system) become oracle functions supplied as parameters.  Node's standard
library string and path functions (`path.extname`, `path.dirname`, `split`,
`replace`, `includes`, `startsWith`) are given executable models below.
-/

/-- JavaScript strings are modelled as explicit character lists so that all
operations are structural recursions the kernel can evaluate. -/
abbrev Str := List Char

/-- Inject a Lean string literal into the model. -/
def str (s : String) : Str := s.data

/-- Model of JavaScript `s.startsWith(p)`. -/
def startsWithL : Str → Str → Bool
  | _, [] => true
  | [], _ :: _ => false
  | a :: as, b :: bs => a = b && startsWithL as bs

/-- Model of JavaScript `s.endsWith(p)`. -/
def endsWithL (l p : Str) : Bool := p.reverse.isPrefixOf l.reverse

/-- Model of JavaScript `s.includes(p)` (substring containment). -/
def containsL : Str → Str → Bool
  | [], p => p.isEmpty
  | c :: cs, p => p.isPrefixOf (c :: cs) || containsL cs p

/-- Model of JavaScript `s.split(c)` for a single-character separator:
splits at every occurrence, keeping empty pieces. -/
def splitCh (c : Char) : Str → List Str
  | [] => [[]]
  | x :: xs =>
    match splitCh c xs with
    | [] => [[]]
    | h :: t => if x = c then [] :: h :: t else (x :: h) :: t

/-- Drop empty tokens produced by runs of separators, keeping a trailing
empty token (mirrors how `split(/\s+/)` collapses interior whitespace runs). -/
def collapseMid : List Str → List Str
  | [] => []
  | [x] => [x]
  | x :: xs => if x = [] then collapseMid xs else x :: collapseMid xs

/-- Model of JavaScript `s.split(/\s+/)` (with `' '` as the whitespace
character): interior runs collapse, a leading or trailing run contributes an
empty token. -/
def splitWs (l : Str) : List Str :=
  match splitCh ' ' l with
  | [] => []
  | x :: xs => x :: collapseMid xs

/-- Model of JavaScript `s.replace(pat, repl)` with a plain-string pattern:
replaces the first (leftmost) occurrence only, literally. -/
def replaceFirst (pat repl : Str) : Str → Str
  | [] => if pat = [] then repl else []
  | c :: cs =>
    if pat.isPrefixOf (c :: cs) then repl ++ (c :: cs).drop pat.length
    else c :: replaceFirst pat repl cs

/-- Model of JavaScript `s.replace(new RegExp(ext + "$"), repl)` for a pattern
with no regex metacharacters: if `s` ends with `pat`, replace that suffix. -/
def replaceSuffix (l pat repl : Str) : Str :=
  if endsWithL l pat then l.take (l.length - pat.length) ++ repl else l

/-- Model of Node `path.extname`: the extension (with its dot) of the final
path segment; a leading-dot file and the special `".."` basename have no
extension, a trailing dot yields `"."`. -/
def extnameChars (l : Str) : Str :=
  let rb := l.reverse.takeWhile (fun c => c != '/')
  match rb.dropWhile (fun c => c != '.') with
  | [] => []
  | [_] => []
  | _ :: _ :: _ => if rb = ['.', '.'] then [] else '.' :: (rb.takeWhile (fun c => c != '.')).reverse

/-- `path.extname(f).substr(1)`: the extension without its dot. -/
def extNoDot (l : Str) : Str := (extnameChars l).drop 1

/-- Model of Node `path.dirname`. -/
def dirnameChars (l : Str) : Str :=
  match l.reverse.dropWhile (fun c => c != '/') with
  | [] => str "."
  | _ :: rest => if rest = [] then str "/" else rest.reverse

/-- Simplified model of Node `path.resolve(base, p)` for an absolute `base`:
an absolute `p` wins, otherwise the two are joined with a separator.  (Node
additionally normalises `.` and `..` segments; none of the verified
properties depend on that normalisation.) -/
def resolvePath (base p : Str) : Str :=
  if startsWithL p (str "/") then p else base ++ '/' :: p

/-- JavaScript `Set.add`: insert only if absent (insertion order preserved). -/
def insertDedup (s : List Str) (x : Str) : List Str :=
  if x ∈ s then s else s ++ [x]

/-- JavaScript object property lookup, for the dependency import map. -/
def lookupMap : List (Str × Str) → Str → Option Str
  | [], _ => none
  | (k, v) :: rest, s => if k = s then some v else lookupMap rest s

/-! ## Status channel events (build.ts: `messageBus.emit`, §6 of the spec) -/

/-- One event on the status channel (`messageBus`).  `console` covers the
intercepted `console.log/warn/error` calls, which the command re-emits as
`CONSOLE` events (build.ts lines 111-119). -/
inductive Event where
  | workerUpdate (id : Str) (state : Str)
  | workerMsg (id : Str) (level : Str) (msg : Str)
  | workerComplete (id : Str) (hasError : Bool)
  | workerReset (id : Str)
  | missingWebModule (specifier : Str)
  | console (level : Str)
deriving DecidableEq

/-! ## The import rewriter (build.ts lines 227-252, 302-327, 352-377) -/

/-- Modelled from the spec: the module `./src-file-extension-mapping` is not
under `src/`.  Per the spec it is "a fixed table" in which style-sheet,
Sass-family and compile-to-JS source extensions all map to the (bare) script
extension (spec §4.4 "a Sass-family extension maps to the script extension",
§4.5 "a style-sheet extension → script extension", §8 end-to-end css example
where `a.css` yields `a.js` post-remap). -/
def srcFileExtensionMapping (e : Str) : Option Str :=
  if e = str "ts" ∨ e = str "tsx" ∨ e = str "jsx" ∨ e = str "mdx" ∨ e = str "svx"
     ∨ e = str "vue" ∨ e = str "svelte"
     ∨ e = str "css" ∨ e = str "scss" ∨ e = str "sass" ∨ e = str "less"
  then some (str "js") else none

/-- `spec.startsWith('/') || spec.startsWith('./') || spec.startsWith('../')`
(build.ts lines 231, 306, 356). -/
def isRelOrAbs (spec : Str) : Bool :=
  startsWithL spec (str "/") || startsWithL spec (str "./") || startsWithL spec (str "../")

/-- The shared, write-only effects of a rewriting pass: the `allProxiedFiles`
set (build.ts line 265) and the events emitted so far. -/
structure RwEffects where
  proxied : List Str
  events : List Event
deriving DecidableEq

/-- The specifier-rewriting callback passed to `transformEsmImports`
(build.ts lines 227-252; repeated at 302-327 and 352-377).  `proxyEnabled`
is instantiated with `!isBundled` at the mount-level and build-worker call
sites (lines 240, 315) and with `true` — no bundling guard — at the
plugin-worker call site (line 365). -/
def rewriteSpec (proxyEnabled : Bool) (imports : List (Str × Str)) (outPath : Str)
    (spec : Str) (fx : RwEffects) : Str × RwEffects :=
  if startsWithL spec (str "http") then (spec, fx)
  else if isRelOrAbs spec then
    let ext := extNoDot spec
    if ext = [] then (spec ++ str ".js", fx)
    else
      let extToReplace := srcFileExtensionMapping ext
      let spec1 :=
        match extToReplace with
        | some r => replaceSuffix spec ext r
        | none => spec
      if proxyEnabled ∧ extToReplace.getD ext ≠ str "js" then
        let resolvedUrl := resolvePath (dirnameChars outPath) spec1
        (spec1 ++ str ".proxy.js",
          { proxied := insertDedup fx.proxied resolvedUrl, events := fx.events })
      else (spec1, fx)
  else
    match lookupMap imports spec with
    | some v => (resolvePath (str "/web_modules") v, fx)
    | none =>
      (str "/web_modules/" ++ spec ++ str ".js",
        { fx with events := fx.events ++ [Event.missingWebModule spec] })

/-- The branch logic of the mount-level direct-rewrite callback (build.ts
line 240: `if (!isBundled && (extToReplace || ext) !== 'js')`), textually
shared with the build-worker pass.  NOTE: at the mount-level call site the
guarded branch cannot complete — `allProxiedFiles` is declared (`const`,
line 265) only after the mount loop has been awaited, so the add at line
242 is a temporal-dead-zone access that throws (see `mountRewriteSpecTdz`
for the executed behaviour).  This total version therefore describes the
mount-level site exactly on the inputs that do not take the proxy branch —
in particular whenever bundling is enabled. -/
def mountPassRewrite (isBundled : Bool) (imports : List (Str × Str)) (outPath : Str)
    (spec : Str) (fx : RwEffects) : Str × RwEffects :=
  rewriteSpec (!isBundled) imports outPath spec fx

/-- The build-worker output pass's callback (build.ts line 315: same
`!isBundled` guard as the mount pass). -/
def buildPassRewrite (isBundled : Bool) (imports : List (Str × Str)) (outPath : Str)
    (spec : Str) (fx : RwEffects) : Str × RwEffects :=
  rewriteSpec (!isBundled) imports outPath spec fx

/-- The plugin-worker output pass's callback (build.ts line 365:
`if ((extToReplace || ext) !== 'js')` — no `!isBundled` guard; the
`isBundled` argument is accepted but ignored, exactly as in the source). -/
def pluginPassRewrite (_isBundled : Bool) (imports : List (Str × Str)) (outPath : Str)
    (spec : Str) (fx : RwEffects) : Str × RwEffects :=
  rewriteSpec true imports outPath spec fx

/-- Modelled from the spec: `transformEsmImports` (module
`../rewrite-imports`, not under `src/`).  Per spec §4.5 it finds every
"from" specifier of one script unit's module declarations and rewrites each
occurrence, in order, statelessly apart from the shared effects; a script
unit's content is therefore modelled as its list of specifier occurrences. -/
def transformImports (rw : Str → RwEffects → Str × RwEffects) :
    List Str → RwEffects → List Str × RwEffects
  | [], fx => ([], fx)
  | s :: ss, fx =>
    let p := rw s fx
    let q := transformImports rw ss p.2
    (p.1 :: q.1, q.2)

/-! ## Worker registry (build.ts lines 91-109) -/

/-- `id.split(':')[1].split(',')` (build.ts line 101): the extension list a
`build:`/`plugin:` worker declares in its id suffix. -/
def workerExts (id : Str) : List Str :=
  splitCh ',' ((splitCh ':' id).getD 1 [])

/-- `allBuildExtensions` (build.ts lines 100-106): the union, in registration
order, of every `build:`/`plugin:` worker's declared extensions. -/
def allBuildExtensions (scripts : List (Str × Str)) : List Str :=
  (scripts.filter
    (fun p => startsWithL p.1 (str "build:") || startsWithL p.1 (str "plugin:"))).flatMap
    (fun p => workerExts p.1)

/-- The file-routing guard of the worker loop (build.ts line 274):
`id.includes(':' + fileExtension) || id.includes(',' + fileExtension)` —
note this is substring containment on the whole id, not membership in the
declared extension list. -/
def workerFileMatch (id ext : Str) : Bool :=
  containsL id (':' :: ext) || containsL id (',' :: ext)

/-! ## The transform-worker pipeline (build.ts lines 264-385) -/

/-- Outcome of `execa.command` for a `build:` worker (build.ts line 281).
A non-zero process exit makes the awaited promise reject, i.e. throw
(`fail`); on success the captured output stream may be empty (`none`,
JavaScript's falsy empty string). -/
inductive ProcResult where
  | fail (msg : Str)
  | ok (stdout : Option (List Str)) (stderr : Str)
deriving DecidableEq

/-- The external collaborators of the worker loop: the spawned build process
(arguments: the substituted command and the file whose bytes are streamed
in) and the dynamically loaded plugin's `build` operation.  A script unit's
content is its list of import-specifier occurrences (see
`transformImports`). -/
structure Externals where
  runBuildCmd : Str → Str → ProcResult
  runPlugin : Str → Str → Except Str (List Str)

/-- The shared mutable state of the pipeline: `allProxiedFiles`
(build.ts line 265), `allBuiltFromFiles` (line 264), the files written to
the output tree, and the events emitted on the status channel. -/
structure BuildState where
  proxied : List Str
  builtFrom : List Str
  written : List (Str × List Str)
  events : List Event
deriving DecidableEq

/-- The empty initial state of a run. -/
def initState : BuildState := ⟨[], [], [], []⟩

/-- Transfer the rewriter's effects back into the pipeline state. -/
def withFx (st : BuildState) (fx : RwEffects) : BuildState :=
  { st with proxied := fx.proxied, events := fx.events }

/-- One file under one `build:`/`plugin:` worker (build.ts lines 272-381).
The guard at line 274 skips non-matching files; a `build:` worker whose
process exits non-zero THROWS (there is no try/catch around line 281), which
the model renders as `Except.error`; a `plugin:` worker's thrown error is
caught (lines 336-343): the message is tagged with the worker id,
`console.error` fires (a `CONSOLE` event) and `WORKER_COMPLETE {id, error}`
is emitted, then the loop continues.  Only the `build:` branch records the
source path in `allBuiltFromFiles` (line 331). -/
def processWorkerFile (isBundled : Bool) (imports : List (Str × Str)) (ex : Externals)
    (id cmd : Str) (dirDisk dirDest : Str) (f : Str) (st : BuildState) :
    Except Str BuildState :=
  let fileExtension := extNoDot f
  if workerFileMatch id fileExtension = false then Except.ok st
  else if startsWithL id (str "build:") then
    match ex.runBuildCmd (replaceFirst (str "$FILE") f cmd) f with
    | ProcResult.fail e => Except.error e
    | ProcResult.ok stdout stderr =>
      let st1 := if stderr ≠ [] then
          { st with events := st.events ++ [Event.console (str "error")] }
        else st
      match stdout with
      | none => Except.ok st1
      | some code0 =>
        let outPath0 := replaceFirst dirDisk dirDest f
        let extToFind := extNoDot f
        let outPath :=
          match srcFileExtensionMapping extToFind with
          | some r => replaceSuffix outPath0 extToFind r
          | none => outPath0
        if extnameChars outPath = str ".js" then
          let q := transformImports (buildPassRewrite isBundled imports outPath) code0
            ⟨st1.proxied, st1.events⟩
          Except.ok { withFx st1 q.2 with
            written := st1.written ++ [(outPath, q.1)],
            builtFrom := insertDedup st1.builtFrom f }
        else
          Except.ok { st1 with
            written := st1.written ++ [(outPath, code0)],
            builtFrom := insertDedup st1.builtFrom f }
  else if startsWithL id (str "plugin:") then
    match ex.runPlugin cmd f with
    | Except.error _ =>
      Except.ok { st with
        events := st.events ++ [Event.console (str "error"), Event.workerComplete id true] }
    | Except.ok result =>
      let outPath0 := replaceFirst dirDisk dirDest f
      let extToFind := extNoDot f
      let outPath :=
        match srcFileExtensionMapping extToFind with
        | some r => replaceSuffix outPath0 extToFind r
        | none => outPath0
      if extnameChars outPath = str ".js" then
        let q := transformImports (pluginPassRewrite isBundled imports outPath) result
          ⟨st.proxied, st.events⟩
        Except.ok { withFx st q.2 with written := st.written ++ [(outPath, q.1)] }
      else
        Except.ok { st with written := st.written ++ [(outPath, result)] }
  else Except.ok st

/-- The inner file loop (build.ts line 272): files of one include-set, in
enumeration order; a thrown build-worker error aborts the whole loop. -/
def runWorkerFiles (isBundled : Bool) (imports : List (Str × Str)) (ex : Externals)
    (id cmd dirDisk dirDest : Str) :
    List Str → BuildState → Except Str BuildState
  | [], st => Except.ok st
  | f :: fs, st =>
    match processWorkerFile isBundled imports ex id cmd dirDisk dirDest f st with
    | Except.error e => Except.error e
    | Except.ok st1 => runWorkerFiles isBundled imports ex id cmd dirDisk dirDest fs st1

/-- The include-set loop (build.ts line 271). -/
def runWorkerSets (isBundled : Bool) (imports : List (Str × Str)) (ex : Externals)
    (id cmd : Str) :
    List (Str × Str × List Str) → BuildState → Except Str BuildState
  | [], st => Except.ok st
  | s :: rest, st =>
    match runWorkerFiles isBundled imports ex id cmd s.1 s.2.1 s.2.2 st with
    | Except.error e => Except.error e
    | Except.ok st1 => runWorkerSets isBundled imports ex id cmd rest st1

/-- The worker loop (build.ts lines 266-385): every registered worker in
order, skipping non-`build:`/`plugin:` ids (line 267); `WORKER_UPDATE
RUNNING` before a worker's files, `WORKER_COMPLETE {error: null}` after. -/
def runWorkers (isBundled : Bool) (imports : List (Str × Str)) (ex : Externals)
    (sets : List (Str × Str × List Str)) :
    List (Str × Str) → BuildState → Except Str BuildState
  | [], st => Except.ok st
  | (id, cmd) :: ws, st =>
    if (startsWithL id (str "build:") || startsWithL id (str "plugin:")) = false then
      runWorkers isBundled imports ex sets ws st
    else
      let st0 := { st with events := st.events ++ [Event.workerUpdate id (str "RUNNING")] }
      match runWorkerSets isBundled imports ex id cmd sets st0 with
      | Except.error e => Except.error e
      | Except.ok st1 =>
        runWorkers isBundled imports ex sets ws
          { st1 with events := st1.events ++ [Event.workerComplete id false] }

/-! ## The mount pass (build.ts lines 200-262) -/

/-- The terminal action the mount pass chooses for one enumerated file
(build.ts lines 214-253): defer to the worker stage when the extension is in
the registry's transform set (line 216), otherwise copy the bytes verbatim
unless the file is a bare `.js` script, which is rewritten in place. -/
inductive MountAction where
  | defer
  | copy (outPath : Str)
  | rewriteWrite (outPath : Str)
deriving DecidableEq

/-- The routing decision of the mount pass for one file (build.ts
lines 216-224). -/
def mountFileAction (exts : List Str) (dirDisk dirDest f : Str) : MountAction :=
  if extNoDot f ∈ exts then MountAction.defer
  else
    let outPath := replaceFirst dirDisk dirDest f
    if extnameChars f ≠ str ".js" then MountAction.copy outPath
    else MountAction.rewriteWrite outPath

/-- The mount-level rewrite callback as it actually executes (build.ts
lines 227-252): `allProxiedFiles` is declared with `const` only at line
265, AFTER the mount loop (lines 200-262) has been awaited, so the access
`allProxiedFiles.add(resolvedUrl)` at line 242 — reached exactly when
bundling is disabled and the post-remap extension is not the bare script
extension — occurs in the temporal dead zone and throws a ReferenceError,
failing the file task.  All other branches are those of `rewriteSpec`. -/
def mountRewriteSpecTdz (isBundled : Bool) (imports : List (Str × Str)) (outPath : Str)
    (spec : Str) (fx : RwEffects) : Except Str (Str × RwEffects) :=
  if startsWithL spec (str "http") then Except.ok (spec, fx)
  else if isRelOrAbs spec then
    let ext := extNoDot spec
    if ext = [] then Except.ok (spec ++ str ".js", fx)
    else
      let extToReplace := srcFileExtensionMapping ext
      let spec1 :=
        match extToReplace with
        | some r => replaceSuffix spec ext r
        | none => spec
      if (!isBundled) ∧ extToReplace.getD ext ≠ str "js" then
        let _resolvedUrl := resolvePath (dirnameChars outPath) spec1
        Except.error
          (str "ReferenceError: Cannot access allProxiedFiles before initialization")
      else Except.ok (spec1, fx)
  else
    match lookupMap imports spec with
    | some v => Except.ok (resolvePath (str "/web_modules") v, fx)
    | none =>
      Except.ok (str "/web_modules/" ++ spec ++ str ".js",
        { fx with events := fx.events ++ [Event.missingWebModule spec] })

/-- `transformEsmImports` over a callback that may throw (the mount-level
case): occurrences are rewritten in order and the first thrown error
rejects the whole transform. -/
def transformImportsE (rw : Str → RwEffects → Except Str (Str × RwEffects)) :
    List Str → RwEffects → Except Str (List Str × RwEffects)
  | [], fx => Except.ok ([], fx)
  | s :: ss, fx =>
    match rw s fx with
    | Except.error e => Except.error e
    | Except.ok p =>
      match transformImportsE rw ss p.2 with
      | Except.error e => Except.error e
      | Except.ok q => Except.ok (p.1 :: q.1, q.2)

/-- One file of the mount pass, with its state effects (build.ts lines
214-254): a deferred file is appended to `allBuildNeededFiles`; a copied
file's content is written verbatim; a `.js` file is rewritten with the
mount-level callback — which throws (see `mountRewriteSpecTdz`) on the
first proxy-eligible specifier, failing the file task before the write. -/
def processMountFile (isBundled : Bool) (imports : List (Str × Str)) (exts : List Str)
    (contentOf : Str → List Str) (dirDisk dirDest f : Str)
    (st : BuildState) (deferred : List Str) : Except Str (BuildState × List Str) :=
  match mountFileAction exts dirDisk dirDest f with
  | MountAction.defer => Except.ok (st, deferred ++ [f])
  | MountAction.copy outPath =>
    Except.ok ({ st with written := st.written ++ [(outPath, contentOf f)] }, deferred)
  | MountAction.rewriteWrite outPath =>
    match transformImportsE (mountRewriteSpecTdz isBundled imports outPath) (contentOf f)
      ⟨st.proxied, st.events⟩ with
    | Except.error e => Except.error e
    | Except.ok q =>
      Except.ok ({ withFx st q.2 with written := st.written ++ [(outPath, q.1)] }, deferred)

/-- The per-mount file loop (build.ts line 213): the source runs the file
tasks concurrently under `Promise.all`; the model runs them in enumeration
order and stops at the first thrown error, returning the state reached so
far together with the error, for the enclosing mount's catch to consume. -/
def runMountFiles (isBundled : Bool) (imports : List (Str × Str)) (exts : List Str)
    (contentOf : Str → List Str) (dirDisk dirDest : Str) :
    List Str → BuildState → List Str → BuildState × List Str × Option Str
  | [], st, deferred => (st, deferred, none)
  | f :: fs, st, deferred =>
    match processMountFile isBundled imports exts contentOf dirDisk dirDest f st deferred with
    | Except.error e => (st, deferred, some e)
    | Except.ok p => runMountFiles isBundled imports exts contentOf dirDisk dirDest fs p.1 p.2

/-- The mount loop (build.ts lines 201-262): for each resolved mount point,
emit `WORKER_UPDATE RUNNING` and process its enumerated files; on success
push the include-set `(dirDisk, dirDest, allBuildNeededFiles)` and emit
`WORKER_COMPLETE`; a thrown error is caught by the per-mount try/catch
(lines 258-261), which emits `WORKER_MSG` and `WORKER_COMPLETE {error}`,
pushes no include-set, and lets the loop continue with the next mount. -/
def runMountPass (isBundled : Bool) (imports : List (Str × Str)) (exts : List Str)
    (contentOf : Str → List Str) (filesOf : Str → List Str) :
    List (Str × Str × Str) → BuildState → BuildState × List (Str × Str × List Str)
  | [], st => (st, [])
  | (id, dirDisk, dirDest) :: ms, st =>
    let st0 := { st with events := st.events ++ [Event.workerUpdate id (str "RUNNING")] }
    match runMountFiles isBundled imports exts contentOf dirDisk dirDest
      (filesOf dirDisk) st0 [] with
    | (st1, _, some e) =>
      let st2 := { st1 with events := st1.events ++
        [Event.workerMsg id (str "error") e, Event.workerComplete id true] }
      runMountPass isBundled imports exts contentOf filesOf ms st2
    | (st1, deferred, none) =>
      let st2 := { st1 with events := st1.events ++ [Event.workerComplete id false] }
      let q := runMountPass isBundled imports exts contentOf filesOf ms st2
      (q.1, (dirDisk, dirDest, deferred) :: q.2)

/-- The mount pass followed by the transform-worker loop, sharing one state
(build.ts lines 200-385). -/
def runPipeline (isBundled : Bool) (imports : List (Str × Str)) (ex : Externals)
    (scripts : List (Str × Str)) (contentOf filesOf : Str → List Str)
    (mounts : List (Str × Str × Str)) : Except Str BuildState :=
  let p := runMountPass isBundled imports (allBuildExtensions scripts) contentOf filesOf
    mounts initState
  runWorkers isBundled imports ex p.2 scripts p.1

/-! ## The pre-bundle copy (build.ts lines 414-425) -/

/-- The copy filter of `prepareBuildDirectoryForParcel` (build.ts
lines 418-420): keep `srcLoc` iff it is NOT in `allBuiltFromFiles`. -/
def copyFilterFn (builtFrom : List Str) (srcLoc : Str) : Bool :=
  !(builtFrom.contains srcLoc)

/-- The set of files the pre-bundle copy actually transfers from the
intermediate build directory into the final output directory. -/
def prepareCopyList (builtFrom : List Str) (files : List Str) : List Str :=
  files.filter (copyFilterFn builtFrom)

/-! ## Mount command parsing (build.ts lines 63-81 and 178-198) -/

/-- Minimal model of `yargs-parser` for the mount grammar: the value of the
`--to` flag, when present with a value. -/
def yargsTo : List Str → Option Str
  | [] => none
  | t :: rest => if t = str "--to" then rest.head? else yargsTo rest

/-- `mountDirDetails` for a single `mount:` script (build.ts lines 178-198):
token 0 must be the literal `mount` directive (else a fatal error is
thrown); token 1 resolves against the working directory to the source
directory; the destination is the same name — or the `--to` value — resolved
under the build directory.  (`path.resolve(buildDirectoryLoc, undefined)`,
the missing `--to` case, also throws in Node.) -/
def parseMountScript (cwd buildRoot : Str) (id cmdStr : Str) :
    Except Str (Str × Str × Str) :=
  let cmdArr := splitWs cmdStr
  if cmdArr.headD [] ≠ str "mount" then
    Except.error (str "script[" ++ id ++ str "] must use the mount command")
  else
    let rest := cmdArr.drop 1
    let dirDisk := resolvePath cwd (rest.headD [])
    if rest.length = 1 then
      Except.ok (id, dirDisk, resolvePath buildRoot (rest.headD []))
    else
      match yargsTo rest with
      | some t => Except.ok (id, dirDisk, resolvePath buildRoot t)
      | none => Except.error (str "missing value for the to flag")

/-- The validation performed by the first mount loop (build.ts lines 63-70):
every `mount:` script's command must begin with the literal `mount`
directive, else the run aborts. -/
def checkMountScripts : List (Str × Str) → Except Str Unit
  | [] => Except.ok ()
  | (id, cmd) :: rest =>
    if startsWithL id (str "mount:") then
      if (splitWs cmd).headD [] = str "mount" then checkMountScripts rest
      else Except.error (str "script[" ++ id ++ str "] must use the mount command")
    else checkMountScripts rest

/-- All `mount:` scripts resolved through `mountDirDetails` (build.ts
lines 178-198). -/
def mountDirDetailsList (cwd buildRoot : Str) :
    List (Str × Str) → Except Str (List (Str × Str × Str))
  | [] => Except.ok []
  | (id, cmd) :: rest =>
    if startsWithL id (str "mount:") then
      match parseMountScript cwd buildRoot id cmd with
      | Except.error e => Except.error e
      | Except.ok d =>
        match mountDirDetailsList cwd buildRoot rest with
        | Except.error e => Except.error e
        | Except.ok ds => Except.ok (d :: ds)
    else mountDirDetailsList cwd buildRoot rest

/-! ## Effect trace of the command (build.ts lines 25-262) -/

/-- A file-system or process effect of `command`, in program order. -/
inductive Eff where
  | rmrf (dir : Str)
  | mkdirp (dir : Str)
  | enumerate (dir : Str)
  | copyFile (src dst : Str)
  | writeFile (p : Str)
  | runProcess (cmd : Str)
deriving DecidableEq

/-- Effects that touch the output tree's files: enumeration, copies and
writes. -/
def isFileEff : Eff → Bool
  | Eff.enumerate _ => true
  | Eff.copyFile _ _ => true
  | Eff.writeFile _ => true
  | _ => false

/-- The delete-and-recreate effects of build.ts lines 83-88: the final
output directory always, the intermediate build directory when distinct. -/
def cleanupEffects (outDir buildDir : Str) : List Eff :=
  [Eff.rmrf outDir, Eff.mkdirp outDir] ++
    (if outDir ≠ buildDir then [Eff.rmrf buildDir, Eff.mkdirp buildDir] else [])

/-- The effects of the mount pass for one file (build.ts lines 214-224):
nothing for a deferred file; `mkdirp` of the destination's parent, then a
copy or a write, otherwise. -/
def mountFileEffects (exts : List Str) (dirDisk dirDest f : Str) : List Eff :=
  match mountFileAction exts dirDisk dirDest f with
  | MountAction.defer => []
  | MountAction.copy out => [Eff.mkdirp (dirnameChars out), Eff.copyFile f out]
  | MountAction.rewriteWrite out => [Eff.mkdirp (dirnameChars out), Eff.writeFile out]

/-- The lint workers launched up front (build.ts lines 133-144). -/
def lintEffects (scripts : List (Str × Str)) : List Eff :=
  (scripts.filter (fun p => startsWithL p.1 (str "lintall:"))).map
    (fun p => Eff.runProcess p.2)

/-- The enumeration and per-file effects of the mount pass (build.ts
lines 201-255). -/
def mountPassEffects (exts : List Str) (filesOf : Str → List Str)
    (ds : List (Str × Str × Str)) : List Eff :=
  ds.flatMap (fun d =>
    Eff.enumerate d.2.1 :: (filesOf d.2.1).flatMap (mountFileEffects exts d.2.1 d.2.2))

/-- The effect trace of `command` up to the end of the mount pass (build.ts
lines 25-262), in source order: the empty-registry early return (lines
56-60) produces no effects; a malformed mount command (first loop, lines
63-81, or `mountDirDetails`, lines 178-198) aborts; otherwise the output
directories are deleted and recreated (lines 83-88), the lint workers are
spawned (lines 133-144) and the mount pass runs (lines 200-262). -/
def commandEffects (scripts : List (Str × Str)) (cwd outDir : Str) (isBundled : Bool)
    (filesOf : Str → List Str) : Except Str (List Eff) :=
  if scripts = [] then Except.ok []
  else
    match checkMountScripts scripts with
    | Except.error e => Except.error e
    | Except.ok _ =>
      let buildDir := if isBundled then cwd ++ str "/.build" else outDir
      match mountDirDetailsList cwd buildDir scripts with
      | Except.error e => Except.error e
      | Except.ok ds =>
        Except.ok (cleanupEffects outDir buildDir ++ lintEffects scripts ++
          mountPassEffects (allBuildExtensions scripts) filesOf ds)

/-- A specifier that is neither a URL nor relative/root-relative and is
absent from the dependency import map: the "missing dependency" case of the
rewriter (build.ts lines 250-251). -/
def isMissingBare (imports : List (Str × Str)) (spec : Str) : Bool :=
  !startsWithL spec (str "http") && !isRelOrAbs spec && (lookupMap imports spec).isNone

/-! ## Helper lemmas about the string primitives -/

theorem isPrefixOf_append_self (a b : List Char) : a.isPrefixOf (a ++ b) = true := by
  induction a with
  | nil => simp [List.isPrefixOf]
  | cons c cs ih => simp [List.isPrefixOf, ih]

theorem startsWithL_iff (l p : Str) : startsWithL l p = true ↔ ∃ t, l = p ++ t := by
  induction p generalizing l with
  | nil => simp [startsWithL]
  | cons c cs ih =>
    cases l with
    | nil => simp [startsWithL]
    | cons a as =>
      simp only [startsWithL, Bool.and_eq_true, decide_eq_true_eq, ih]
      constructor
      · rintro ⟨rfl, t, rfl⟩; exact ⟨t, rfl⟩
      · rintro ⟨t, h⟩
        cases h
        exact ⟨rfl, t, rfl⟩

theorem takeWhile_append_all {a : List Char} (b : List Char) {p : Char → Bool}
    (h : ∀ c ∈ a, p c = true) : (a ++ b).takeWhile p = a ++ b.takeWhile p := by
  induction a with
  | nil => simp
  | cons c cs ih =>
    simp only [List.cons_append, List.takeWhile_cons]
    rw [h c (by simp), if_pos rfl, ih (fun d hd => h d (by simp [hd]))]

theorem dropWhile_append_all {a : List Char} (b : List Char) {p : Char → Bool}
    (h : ∀ c ∈ a, p c = true) : (a ++ b).dropWhile p = b.dropWhile p := by
  induction a with
  | nil => simp
  | cons c cs ih =>
    simp only [List.cons_append, List.dropWhile_cons]
    rw [h c (by simp), if_pos rfl]
    exact ih (fun d hd => h d (by simp [hd]))

theorem dropWhile_head_false {l : List Char} {p : Char → Bool} {c : Char} {cs : List Char}
    (h : l.dropWhile p = c :: cs) : p c = false := by
  induction l with
  | nil => simp at h
  | cons a as ih =>
    rw [List.dropWhile_cons] at h
    by_cases hp : p a = true
    · rw [if_pos hp] at h; exact ih h
    · rw [if_neg hp] at h
      cases h; simpa using hp

theorem extnameChars_dot_append {u g : Str} (hg : g ≠ [])
    (hgch : ∀ c ∈ g, c ≠ '.' ∧ c ≠ '/')
    (hw : u.reverse.takeWhile (fun c => c != '/') ≠ []) :
    extnameChars (u ++ '.' :: g) = '.' :: g := by
  obtain ⟨w1, w2, hw12⟩ : ∃ w1 w2, u.reverse.takeWhile (fun c => c != '/') = w1 :: w2 := by
    cases hww : u.reverse.takeWhile (fun c => c != '/') with
    | nil => exact absurd hww hw
    | cons a b => exact ⟨a, b, rfl⟩
  have hgr : ∀ c ∈ g.reverse, (c != '/') = true := by
    intro c hc
    simp only [List.mem_reverse] at hc
    simpa using (hgch c hc).2
  have hgr2 : ∀ c ∈ g.reverse, (c != '.') = true := by
    intro c hc
    simp only [List.mem_reverse] at hc
    simpa using (hgch c hc).1
  have hrev : (u ++ '.' :: g).reverse = g.reverse ++ '.' :: u.reverse := by
    simp
  have hd1 : (('.' : Char) != '/') = true := by decide
  have hd2 : (('.' : Char) != '.') = false := by decide
  have hrb : (u ++ '.' :: g).reverse.takeWhile (fun c => c != '/') =
      g.reverse ++ '.' :: w1 :: w2 := by
    rw [hrev, takeWhile_append_all _ hgr, List.takeWhile_cons, hd1, ← hw12]
    simp
  have hdrop : (g.reverse ++ '.' :: w1 :: w2).dropWhile (fun c => c != '.') =
      '.' :: w1 :: w2 := by
    rw [dropWhile_append_all _ hgr2, List.dropWhile_cons, hd2]
    simp
  have htake : (g.reverse ++ '.' :: w1 :: w2).takeWhile (fun c => c != '.') = g.reverse := by
    rw [takeWhile_append_all _ hgr2, List.takeWhile_cons, hd2]
    simp
  obtain ⟨gh, gt, hgrev⟩ : ∃ gh gt, g.reverse = gh :: gt := by
    cases hgg : g.reverse with
    | nil => simp at hgg; exact absurd hgg hg
    | cons a b => exact ⟨a, b, rfl⟩
  have hne : g.reverse ++ '.' :: w1 :: w2 ≠ ['.', '.'] := by
    rw [hgrev]
    intro hcontra
    have hgdot : gh = '.' := by injection hcontra
    have hghm : gh ∈ g := by
      have : gh ∈ g.reverse := by rw [hgrev]; simp
      simpa using this
    exact (hgch gh hghm).1 hgdot
  unfold extnameChars
  simp only [hrb, hdrop]
  rw [if_neg hne, htake]
  simp


theorem extnameChars_structure {l e : Str} (h : extnameChars l = '.' :: e) :
    ∃ u, l = u ++ '.' :: e ∧ (∀ c ∈ e, c ≠ '.' ∧ c ≠ '/') ∧
      u.reverse.takeWhile (fun c => c != '/') ≠ [] := by
  unfold extnameChars at h
  dsimp only at h
  cases hd : (l.reverse.takeWhile (fun c => c != '/')).dropWhile (fun c => c != '.') with
  | nil => rw [hd] at h; cases h
  | cons x xs =>
    cases xs with
    | nil => rw [hd] at h; cases h
    | cons y t =>
      rw [hd] at h
      by_cases hq : l.reverse.takeWhile (fun c => c != '/') = ['.', '.']
      · rw [if_pos hq] at h; cases h
      · rw [if_neg hq] at h
        have he : e = ((l.reverse.takeWhile (fun c => c != '/')).takeWhile
            (fun c => c != '.')).reverse := by
          injection h with _ h2; exact h2.symm
        have hx : x = '.' := by
          have := dropWhile_head_false hd
          simpa using this
        have hsplit : l.reverse.takeWhile (fun c => c != '/') = e.reverse ++ '.' :: y :: t := by
          conv_lhs => rw [← List.takeWhile_append_dropWhile
            (p := fun c => c != '.') (l := l.reverse.takeWhile (fun c => c != '/'))]
          rw [hd, he, hx]
          simp
        have hlrev : l.reverse = (l.reverse.takeWhile (fun c => c != '/')) ++
            l.reverse.dropWhile (fun c => c != '/') := by
          conv_lhs => rw [← List.takeWhile_append_dropWhile
            (p := fun c => c != '/') (l := l.reverse)]
        refine ⟨(l.reverse.dropWhile (fun c => c != '/')).reverse ++ (y :: t).reverse,
          ?_, ?_, ?_⟩
        · have hl : l = ((l.reverse.takeWhile (fun c => c != '/')) ++
              l.reverse.dropWhile (fun c => c != '/')).reverse := by
            rw [← hlrev]; simp
          conv_lhs => rw [hl]
          rw [hsplit]
          simp
        · intro c hc
          have hc1 : c ∈ (l.reverse.takeWhile (fun c => c != '/')).takeWhile
              (fun c => c != '.') := by
            rw [he] at hc; simpa using hc
          have hdot := List.mem_takeWhile_imp hc1
          have hcrb : c ∈ l.reverse.takeWhile (fun c => c != '/') :=
            (List.takeWhile_prefix _).subset hc1
          have hslash := List.mem_takeWhile_imp hcrb
          exact ⟨by simpa using hdot, by simpa using hslash⟩
        · have hrw : ((l.reverse.dropWhile (fun c => c != '/')).reverse ++
              (y :: t).reverse).reverse = (y :: t) ++ l.reverse.dropWhile (fun c => c != '/') := by
            simp
          rw [hrw]
          have hyrb : y ∈ l.reverse.takeWhile (fun c => c != '/') := by
            rw [hsplit]; simp
          have hy := List.mem_takeWhile_imp hyrb
          simp only [] at hy
          simp [List.takeWhile_cons, hy]

theorem relOrAbs_not_http {s : Str} (h : isRelOrAbs s = true) :
    startsWithL s (str "http") = false := by
  simp only [isRelOrAbs, Bool.or_eq_true] at h
  rcases h with (h | h) | h <;>
    · rw [startsWithL_iff] at h
      obtain ⟨t, rfl⟩ := h
      rfl

theorem replaceSuffix_of_append (u e r : Str) :
    replaceSuffix (u ++ '.' :: e) e r = u ++ '.' :: r := by
  unfold replaceSuffix endsWithL
  have hrev : (u ++ '.' :: e).reverse = e.reverse ++ ('.' :: u.reverse) := by
    simp
  have hpre : e.reverse.isPrefixOf ((u ++ '.' :: e).reverse) = true := by
    rw [hrev]; exact isPrefixOf_append_self _ _
  rw [hpre]
  have hlen : (u ++ '.' :: e).length - e.length = u.length + 1 := by
    simp [List.length_append]
    omega
  rw [if_pos rfl, hlen]
  have hassoc : u ++ '.' :: e = (u ++ ['.']) ++ e := by simp
  rw [hassoc]
  have hlen2 : u.length + 1 = (u ++ ['.']).length := by simp
  rw [hlen2, List.take_left]
  simp

theorem mapping_target_js {e r : Str} (h : srcFileExtensionMapping e = some r) :
    r = str "js" := by
  unfold srcFileExtensionMapping at h
  split at h
  · exact (Option.some.inj h).symm
  · cases h

theorem mapping_source_ne_nil {e r : Str} (h : srcFileExtensionMapping e = some r) :
    e ≠ [] := by
  intro hnil
  rw [hnil] at h
  have hnone : srcFileExtensionMapping ([] : Str) = none := by decide
  rw [hnone] at h
  cases h

theorem extnameChars_head {l : Str} {a : Char} {t : Str} (h : extnameChars l = a :: t) :
    a = '.' := by
  unfold extnameChars at h
  dsimp only at h
  cases hd : (l.reverse.takeWhile (fun c => c != '/')).dropWhile (fun c => c != '.') with
  | nil => rw [hd] at h; cases h
  | cons x xs =>
    cases xs with
    | nil => rw [hd] at h; cases h
    | cons y w =>
      rw [hd] at h
      by_cases hq : l.reverse.takeWhile (fun c => c != '/') = ['.', '.']
      · rw [if_pos hq] at h; cases h
      · rw [if_neg hq] at h
        injection h with h1 _
        exact h1.symm

theorem extnameChars_of_extNoDot {l : Str} (h : extNoDot l ≠ []) :
    extnameChars l = '.' :: extNoDot l := by
  unfold extNoDot at h ⊢
  cases hx : extnameChars l with
  | nil => rw [hx] at h; simp at h
  | cons a t =>
    have ha : a = '.' := extnameChars_head hx
    rw [ha]
    simp

theorem isRelOrAbs_stable {u e : Str} (x : Str) (hech : ∀ c ∈ e, c ≠ '.' ∧ c ≠ '/')
    (h : isRelOrAbs (u ++ '.' :: e) = true) : isRelOrAbs (u ++ x) = true := by
  simp only [isRelOrAbs, Bool.or_eq_true] at h ⊢
  rcases h with (h | h) | h
  · rw [startsWithL_iff] at h
    obtain ⟨t, ht⟩ := h
    cases u with
    | nil =>
      exfalso
      simp only [List.nil_append] at ht
      have h9 := congrArg (fun l => l.headD ' ') ht
      simp [str] at h9
    | cons c u2 =>
      left; left
      rw [startsWithL_iff]
      have hc : c = '/' := by
        have := congrArg (fun l => l.headD ' ') ht
        simpa [str] using this
      exact ⟨u2 ++ x, by simp [hc, str]⟩
  · rw [startsWithL_iff] at h
    obtain ⟨t, ht⟩ := h
    cases u with
    | nil =>
      exfalso
      simp only [List.nil_append] at ht
      have hstr : str "./" ++ t = '.' :: '/' :: t := rfl
      rw [hstr] at ht
      injection ht with h1 h2
      exact (hech '/' (by rw [h2]; simp)).2 rfl
    | cons c u2 =>
      cases u2 with
      | nil =>
        exfalso
        have hstr : str "./" ++ t = '.' :: '/' :: t := rfl
        rw [hstr] at ht
        simp only [List.cons_append, List.singleton_append] at ht
        injection ht with h1 h2
        injection h2 with h3 h4
        exact absurd h3 (by decide)
      | cons d u3 =>
        left; right
        rw [startsWithL_iff]
        have hstr : str "./" ++ t = '.' :: '/' :: t := rfl
        rw [hstr] at ht
        simp only [List.cons_append] at ht
        injection ht with h1 h2
        injection h2 with h3 h4
        exact ⟨u3 ++ x, by simp [str, h1, h3]⟩
  · rw [startsWithL_iff] at h
    obtain ⟨t, ht⟩ := h
    have hstr : str "../" ++ t = '.' :: '.' :: '/' :: t := rfl
    rw [hstr] at ht
    cases u with
    | nil =>
      exfalso
      simp only [List.nil_append] at ht
      injection ht with h1 h2
      exact (hech '.' (by rw [h2]; simp)).1 rfl
    | cons c u2 =>
      cases u2 with
      | nil =>
        exfalso
        simp only [List.cons_append, List.nil_append] at ht
        injection ht with h1 h2
        injection h2 with h3 h4
        exact (hech '/' (by rw [h4]; simp)).2 rfl
      | cons d u3 =>
        cases u3 with
        | nil =>
          exfalso
          simp only [List.cons_append, List.nil_append] at ht
          injection ht with h1 h2
          injection h2 with h3 h4
          injection h4 with h5 h6
          exact absurd h5 (by decide)
        | cons f u4 =>
          right
          rw [startsWithL_iff]
          simp only [List.cons_append] at ht
          injection ht with h1 h2
          injection h2 with h3 h4
          injection h4 with h5 h6
          exact ⟨u4 ++ x, by simp [str, h1, h3, h5]⟩

theorem rewriteSpec_remap_eval {p : Bool} {i : List (Str × Str)} {o spec : Str} {fx : RwEffects}
    (hh : startsWithL spec (str "http") = false)
    (hr : isRelOrAbs spec = true)
    (hne : extNoDot spec ≠ [])
    (hm : srcFileExtensionMapping (extNoDot spec) = some (str "js")) :
    rewriteSpec p i o spec fx = (replaceSuffix spec (extNoDot spec) (str "js"), fx) := by
  unfold rewriteSpec
  rw [hh, hr]
  dsimp only
  rw [hm]
  simp [hne]

theorem rewriteSpec_js_eval {p : Bool} {i : List (Str × Str)} {o spec : Str} {fx : RwEffects}
    (hh : startsWithL spec (str "http") = false)
    (hr : isRelOrAbs spec = true)
    (hext : extNoDot spec = str "js") :
    rewriteSpec p i o spec fx = (spec, fx) := by
  unfold rewriteSpec
  rw [hh, hr]
  dsimp only
  rw [hext]
  have hm : srcFileExtensionMapping (str "js") = none := by decide
  rw [hm]
  simp
  intro hcontra
  exact absurd hcontra (by decide)

theorem rewriteSpec_noext_eval {p : Bool} {i : List (Str × Str)} {o spec : Str} {fx : RwEffects}
    (hr : isRelOrAbs spec = true) (hext : extNoDot spec = []) :
    rewriteSpec p i o spec fx = (spec ++ str ".js", fx) := by
  unfold rewriteSpec
  rw [relOrAbs_not_http hr, hr]
  dsimp only
  rw [hext]
  simp

theorem rewriteSpec_events (p : Bool) (i : List (Str × Str)) (o s : Str) (fx : RwEffects) :
    (rewriteSpec p i o s fx).2.events =
      fx.events ++ (if isMissingBare i s then [Event.missingWebModule s] else []) := by
  unfold rewriteSpec isMissingBare
  by_cases hh : startsWithL s (str "http") = true
  · simp [hh]
  · have hh' : startsWithL s (str "http") = false := by simpa using hh
    rw [hh']
    by_cases hr : isRelOrAbs s = true
    · rw [hr]
      dsimp only
      have hmb : (!false && !true && (lookupMap i s).isNone) = false := by simp
      rw [hmb]
      simp only [Bool.false_eq_true, if_false, List.append_nil]
      split_ifs <;> rfl
    · have hr' : isRelOrAbs s = false := by simpa using hr
      rw [hr']
      cases hlk : lookupMap i s with
      | some v => simp [hh', hr', hlk]
      | none => simp [hh', hr', hlk]

theorem rewriteSpec_missing_eval {p : Bool} {i : List (Str × Str)} {o s : Str} {fx : RwEffects}
    (hmb : isMissingBare i s = true) :
    rewriteSpec p i o s fx = (str "/web_modules/" ++ s ++ str ".js",
      { fx with events := fx.events ++ [Event.missingWebModule s] }) := by
  unfold isMissingBare at hmb
  simp only [Bool.and_eq_true, Bool.not_eq_true', Option.isNone_iff_eq_none] at hmb
  obtain ⟨⟨hh, hr⟩, hlk⟩ := hmb
  unfold rewriteSpec
  rw [hh, hr, hlk]
  simp

theorem rewriteSpec_fst (p : Bool) (i : List (Str × Str)) (o s : Str) (fx fy : RwEffects) :
    (rewriteSpec p i o s fx).1 = (rewriteSpec p i o s fy).1 := by
  unfold rewriteSpec
  by_cases hh : startsWithL s (str "http") = true
  · simp [hh]
  · have hh' : startsWithL s (str "http") = false := by simpa using hh
    rw [hh']
    by_cases hr : isRelOrAbs s = true
    · rw [hr]
      dsimp only
      split_ifs <;> (try rfl) <;> (cases lookupMap i s <;> rfl)
    · have hr' : isRelOrAbs s = false := by simpa using hr
      rw [hr']
      cases hlk : lookupMap i s with
      | some v => rfl
      | none => rfl

theorem rewriteSpec_proxied_cases (p : Bool) (i : List (Str × Str)) (o s : Str)
    (fx : RwEffects) :
    ((rewriteSpec p i o s fx).2).proxied = fx.proxied ∨
    ∃ x, ((rewriteSpec p i o s fx).2).proxied = insertDedup fx.proxied x := by
  unfold rewriteSpec
  by_cases hh : startsWithL s (str "http") = true
  · left; simp [hh]
  · have hh' : startsWithL s (str "http") = false := by simpa using hh
    rw [hh']
    by_cases hr : isRelOrAbs s = true
    · rw [hr]
      dsimp only
      split_ifs <;>
        first
          | (left; rfl)
          | (right; exact ⟨_, rfl⟩)
          | (cases lookupMap i s <;> (left; rfl))
    · have hr' : isRelOrAbs s = false := by simpa using hr
      rw [hr']
      cases hlk : lookupMap i s with
      | some v => left; rfl
      | none => left; rfl

theorem insertDedup_nodup {s : List Str} {x : Str} (h : s.Nodup) :
    (insertDedup s x).Nodup := by
  unfold insertDedup
  split_ifs with hx
  · exact h
  · simp [List.nodup_append, h, hx]

theorem insertDedup_mem_self (s : List Str) (x : Str) : x ∈ insertDedup s x := by
  unfold insertDedup
  split_ifs with hx
  · exact hx
  · simp

theorem rewriteSpec_proxied_nodup {p : Bool} {i : List (Str × Str)} {o s : Str}
    {fx : RwEffects} (h : fx.proxied.Nodup) :
    ((rewriteSpec p i o s fx).2).proxied.Nodup := by
  rcases rewriteSpec_proxied_cases p i o s fx with hc | ⟨x, hc⟩
  · rw [hc]; exact h
  · rw [hc]; exact insertDedup_nodup h

theorem transformImports_proxied_nodup {p : Bool} {i : List (Str × Str)} {o : Str}
    (specs : List Str) {fx : RwEffects} (h : fx.proxied.Nodup) :
    ((transformImports (rewriteSpec p i o) specs fx).2).proxied.Nodup := by
  induction specs generalizing fx with
  | nil => simpa [transformImports] using h
  | cons s ss ih =>
    simp only [transformImports]
    exact ih (rewriteSpec_proxied_nodup h)

theorem transformImports_events (p : Bool) (i : List (Str × Str)) (o : Str)
    (specs : List Str) (fx : RwEffects) :
    ((transformImports (rewriteSpec p i o) specs fx).2).events =
      fx.events ++ (specs.filter (fun s => isMissingBare i s)).map Event.missingWebModule := by
  induction specs generalizing fx with
  | nil => simp [transformImports]
  | cons s ss ih =>
    simp only [transformImports]
    rw [ih, rewriteSpec_events]
    by_cases hmb : isMissingBare i s = true <;>
      simp [hmb, List.filter_cons]

theorem transformImports_length (rw : Str → RwEffects → Str × RwEffects)
    (specs : List Str) (fx : RwEffects) :
    ((transformImports rw specs fx).1).length = specs.length := by
  induction specs generalizing fx with
  | nil => simp [transformImports]
  | cons s ss ih => simp [transformImports, ih]

theorem transformImports_proxied_nodup_any {rw : Str → RwEffects → Str × RwEffects}
    (hrw : ∀ s fx, ((rw s fx).2).proxied = fx.proxied ∨
      ∃ x, ((rw s fx).2).proxied = insertDedup fx.proxied x)
    (specs : List Str) {fx : RwEffects} (h : fx.proxied.Nodup) :
    ((transformImports rw specs fx).2).proxied.Nodup := by
  induction specs generalizing fx with
  | nil => simpa [transformImports] using h
  | cons s ss ih =>
    simp only [transformImports]
    refine ih ?_
    rcases hrw s fx with hc | ⟨x, hc⟩
    · rw [hc]; exact h
    · rw [hc]; exact insertDedup_nodup h

theorem mountPassRewrite_proxied_cases (isB : Bool) (i : List (Str × Str)) (o s : Str)
    (fx : RwEffects) :
    ((mountPassRewrite isB i o s fx).2).proxied = fx.proxied ∨
    ∃ x, ((mountPassRewrite isB i o s fx).2).proxied = insertDedup fx.proxied x :=
  rewriteSpec_proxied_cases (!isB) i o s fx

theorem pluginPassRewrite_proxied_cases (isB : Bool) (i : List (Str × Str)) (o s : Str)
    (fx : RwEffects) :
    ((pluginPassRewrite isB i o s fx).2).proxied = fx.proxied ∨
    ∃ x, ((pluginPassRewrite isB i o s fx).2).proxied = insertDedup fx.proxied x :=
  rewriteSpec_proxied_cases true i o s fx

theorem processWorkerFile_proxied_nodup {isB : Bool} {imports : List (Str × Str)}
    {ex : Externals} {id cmd dirDisk dirDest f : Str} {st st' : BuildState}
    (hok : processWorkerFile isB imports ex id cmd dirDisk dirDest f st = Except.ok st')
    (h : st.proxied.Nodup) : st'.proxied.Nodup := by
  unfold processWorkerFile at hok
  by_cases h1 : workerFileMatch id (extNoDot f) = false
  · rw [if_pos h1] at hok
    cases hok
    exact h
  · rw [if_neg h1] at hok
    by_cases h2 : startsWithL id (str "build:") = true
    · rw [if_pos h2] at hok
      cases hb : ex.runBuildCmd (replaceFirst (str "$FILE") f cmd) f with
      | fail e => rw [hb] at hok; cases hok
      | ok stdout stderr =>
        rw [hb] at hok
        dsimp only at hok
        have hst1 : ((if stderr ≠ [] then
            { st with events := st.events ++ [Event.console (str "error")] }
            else st) : BuildState).proxied = st.proxied := by
          split_ifs <;> rfl
        set st1 : BuildState := if stderr ≠ [] then
          { st with events := st.events ++ [Event.console (str "error")] } else st with hst1def
        cases stdout with
        | none =>
          have heq := Except.ok.inj hok
          rw [← heq, hst1]
          exact h
        | some code0 =>
          dsimp only at hok
          split_ifs at hok with hjs
          · have heq := Except.ok.inj hok
            rw [← heq]
            dsimp only [withFx]
            refine transformImports_proxied_nodup_any
              (fun s fx => rewriteSpec_proxied_cases (!isB) imports _ s fx) code0 ?_
            rw [hst1]
            exact h
          · have heq := Except.ok.inj hok
            rw [← heq]
            dsimp only
            rw [hst1]
            exact h
    · rw [if_neg h2] at hok
      by_cases h3 : startsWithL id (str "plugin:") = true
      · rw [if_pos h3] at hok
        cases hp : ex.runPlugin cmd f with
        | error e =>
          rw [hp] at hok
          cases hok
          exact h
        | ok result =>
          rw [hp] at hok
          dsimp only at hok
          split_ifs at hok with hjs
          · cases hok
            dsimp only [withFx]
            exact transformImports_proxied_nodup_any
              (fun s fx => rewriteSpec_proxied_cases true imports _ s fx) result h
          · cases hok
            exact h
      · rw [if_neg h3] at hok
        cases hok
        exact h

theorem runWorkerFiles_proxied_nodup {isB : Bool} {imports : List (Str × Str)}
    {ex : Externals} {id cmd dirDisk dirDest : Str} (files : List Str)
    {st st' : BuildState}
    (hok : runWorkerFiles isB imports ex id cmd dirDisk dirDest files st = Except.ok st')
    (h : st.proxied.Nodup) : st'.proxied.Nodup := by
  induction files generalizing st with
  | nil => simp only [runWorkerFiles] at hok; cases hok; exact h
  | cons f fs ih =>
    simp only [runWorkerFiles] at hok
    cases hpf : processWorkerFile isB imports ex id cmd dirDisk dirDest f st with
    | error e => rw [hpf] at hok; cases hok
    | ok st1 =>
      rw [hpf] at hok
      exact ih hok (processWorkerFile_proxied_nodup hpf h)

theorem runWorkerSets_proxied_nodup {isB : Bool} {imports : List (Str × Str)}
    {ex : Externals} {id cmd : Str} (sets : List (Str × Str × List Str))
    {st st' : BuildState}
    (hok : runWorkerSets isB imports ex id cmd sets st = Except.ok st')
    (h : st.proxied.Nodup) : st'.proxied.Nodup := by
  induction sets generalizing st with
  | nil => simp only [runWorkerSets] at hok; cases hok; exact h
  | cons s rest ih =>
    simp only [runWorkerSets] at hok
    cases hrf : runWorkerFiles isB imports ex id cmd s.1 s.2.1 s.2.2 st with
    | error e => rw [hrf] at hok; cases hok
    | ok st1 =>
      rw [hrf] at hok
      exact ih hok (runWorkerFiles_proxied_nodup _ hrf h)

theorem runWorkers_proxied_nodup {isB : Bool} {imports : List (Str × Str)}
    {ex : Externals} {sets : List (Str × Str × List Str)}
    (workers : List (Str × Str)) {st st' : BuildState}
    (hok : runWorkers isB imports ex sets workers st = Except.ok st')
    (h : st.proxied.Nodup) : st'.proxied.Nodup := by
  induction workers generalizing st with
  | nil => simp only [runWorkers] at hok; cases hok; exact h
  | cons w ws ih =>
    obtain ⟨id, cmd⟩ := w
    simp only [runWorkers] at hok
    split_ifs at hok with hskip
    · exact ih hok h
    · cases hrs : runWorkerSets isB imports ex id cmd sets
        { st with events := st.events ++ [Event.workerUpdate id (str "RUNNING")] } with
      | error e => rw [hrs] at hok; cases hok
      | ok st1 =>
        rw [hrs] at hok
        have h2 : st1.proxied.Nodup := runWorkerSets_proxied_nodup _ hrs h
        exact ih hok h2

theorem processWorkerFile_skip {isB : Bool} {imports : List (Str × Str)} {ex : Externals}
    {id cmd dirDisk dirDest f : Str} {st : BuildState}
    (hm : workerFileMatch id (extNoDot f) = false) :
    processWorkerFile isB imports ex id cmd dirDisk dirDest f st = Except.ok st := by
  unfold processWorkerFile
  dsimp only
  rw [hm]
  simp

theorem processWorkerFile_build_fail {isB : Bool} {imports : List (Str × Str)} {ex : Externals}
    {id cmd dirDisk dirDest f : Str} {st : BuildState} {e : Str}
    (hm : workerFileMatch id (extNoDot f) = true)
    (hb : startsWithL id (str "build:") = true)
    (hf : ex.runBuildCmd (replaceFirst (str "$FILE") f cmd) f = ProcResult.fail e) :
    processWorkerFile isB imports ex id cmd dirDisk dirDest f st = Except.error e := by
  unfold processWorkerFile
  dsimp only
  rw [hm, hb, hf]
  simp

theorem processWorkerFile_plugin_err {isB : Bool} {imports : List (Str × Str)} {ex : Externals}
    {id cmd dirDisk dirDest f : Str} {st : BuildState} {e : Str}
    (hm : workerFileMatch id (extNoDot f) = true)
    (hnb : startsWithL id (str "build:") = false)
    (hp : startsWithL id (str "plugin:") = true)
    (he : ex.runPlugin cmd f = Except.error e) :
    processWorkerFile isB imports ex id cmd dirDisk dirDest f st = Except.ok
      { st with events := st.events ++
          [Event.console (str "error"), Event.workerComplete id true] } := by
  unfold processWorkerFile
  dsimp only
  rw [hm, hnb, hp, he]
  simp

theorem processWorkerFile_build_ok {isB : Bool} {imports : List (Str × Str)} {ex : Externals}
    {id cmd dirDisk dirDest f : Str} {st : BuildState} {code0 : List Str} {stderr : Str}
    (hm : workerFileMatch id (extNoDot f) = true)
    (hb : startsWithL id (str "build:") = true)
    (hr : ex.runBuildCmd (replaceFirst (str "$FILE") f cmd) f =
      ProcResult.ok (some code0) stderr) :
    ∃ st', processWorkerFile isB imports ex id cmd dirDisk dirDest f st = Except.ok st' ∧
      f ∈ st'.builtFrom ∧ copyFilterFn st'.builtFrom f = false := by
  unfold processWorkerFile
  dsimp only
  have hm' : ¬(workerFileMatch id (extNoDot f) = false) := by simp [hm]
  rw [if_neg hm', if_pos hb, hr]
  dsimp only
  set st1 : BuildState := if stderr ≠ [] then
    { st with events := st.events ++ [Event.console (str "error")] } else st with hst1def
  have hmem : f ∈ insertDedup st1.builtFrom f := insertDedup_mem_self _ _
  have hfilt : copyFilterFn (insertDedup st1.builtFrom f) f = false := by
    unfold copyFilterFn
    have hcont : (insertDedup st1.builtFrom f).contains f = true := by
      simpa [List.contains, List.elem_iff] using hmem
    rw [hcont]
    rfl
  split_ifs with hjs
  all_goals refine ⟨_, rfl, ?_, ?_⟩
  all_goals try exact hmem
  all_goals try exact hfilt

theorem processWorkerFile_plugin_ok {isB : Bool} {imports : List (Str × Str)} {ex : Externals}
    {id cmd dirDisk dirDest f : Str} {st : BuildState} {result : List Str}
    (hm : workerFileMatch id (extNoDot f) = true)
    (hnb : startsWithL id (str "build:") = false)
    (hp : startsWithL id (str "plugin:") = true)
    (hr : ex.runPlugin cmd f = Except.ok result) :
    ∃ st', processWorkerFile isB imports ex id cmd dirDisk dirDest f st = Except.ok st' ∧
      st'.builtFrom = st.builtFrom ∧ st'.written.length = st.written.length + 1 := by
  unfold processWorkerFile
  dsimp only
  have hm' : ¬(workerFileMatch id (extNoDot f) = false) := by simp [hm]
  have hnb' : ¬(startsWithL id (str "build:") = true) := by simp [hnb]
  rw [if_neg hm', if_neg hnb', if_pos hp, hr]
  dsimp only
  split_ifs with hjs
  · exact ⟨_, rfl, rfl, by simp [withFx]⟩
  · exact ⟨_, rfl, rfl, by simp⟩

theorem mountFileAction_defer_iff (exts : List Str) (dirDisk dirDest f : Str) :
    mountFileAction exts dirDisk dirDest f = MountAction.defer ↔ extNoDot f ∈ exts := by
  unfold mountFileAction
  split_ifs with hmem h2 <;> simp [hmem]

theorem runWorkerFiles_cons_ok {isB : Bool} {imports : List (Str × Str)} {ex : Externals}
    {id cmd dirDisk dirDest f : Str} {fs : List Str} {st st1 : BuildState}
    (h : processWorkerFile isB imports ex id cmd dirDisk dirDest f st = Except.ok st1) :
    runWorkerFiles isB imports ex id cmd dirDisk dirDest (f :: fs) st =
      runWorkerFiles isB imports ex id cmd dirDisk dirDest fs st1 := by
  simp only [runWorkerFiles]
  rw [h]

theorem runWorkerFiles_cons_fail {isB : Bool} {imports : List (Str × Str)} {ex : Externals}
    {id cmd dirDisk dirDest f : Str} {fs : List Str} {st : BuildState} {e : Str}
    (h : processWorkerFile isB imports ex id cmd dirDisk dirDest f st = Except.error e) :
    runWorkerFiles isB imports ex id cmd dirDisk dirDest (f :: fs) st = Except.error e := by
  simp only [runWorkerFiles]
  rw [h]

/-! ## The claims -/

/-- C2: the claim states that in every rewriting pass a ProxyRequest is
recorded and the `.proxy.js` suffix appended iff the pipeline is NOT
bundling.  The code violates this: the plugin-worker pass (build.ts line
365) omits the `!isBundled` guard, so with bundling enabled it still
records a ProxyRequest and appends the suffix — this theorem evaluates the
three passes' callbacks on the specifier `./a.svg` with `isBundled = true`:
the mount and build passes leave it alone, the plugin pass proxies it. -/
theorem claim_C2_plugin_pass_proxies_when_bundled :
    pluginPassRewrite true [] (str "/out/mod.js") (str "./a.svg") ⟨[], []⟩ =
      (str "./a.svg.proxy.js", ⟨[str "/out/./a.svg"], []⟩) ∧
    mountPassRewrite true [] (str "/out/mod.js") (str "./a.svg") ⟨[], []⟩ =
      (str "./a.svg", ⟨[], []⟩) ∧
    buildPassRewrite true [] (str "/out/mod.js") (str "./a.svg") ⟨[], []⟩ =
      (str "./a.svg", ⟨[], []⟩) := by
  refine ⟨?_, ?_, ?_⟩ <;> decide

/-- C4 (amended): a `MISSING_WEB_MODULE` event is emitted once per import
OCCURRENCE of a bare specifier absent from the dependency import map — not
once per distinct specifier — each such occurrence is rewritten to the
placeholder `/web_modules/<spec>.js`, and the rewrite is total (one output
specifier per input), so the build completes. -/
theorem claim_C4_missing_module_events (p : Bool) (i : List (Str × Str)) (o : Str)
    (specs : List Str) (fx : RwEffects) :
    ((transformImports (rewriteSpec p i o) specs fx).2).events =
      fx.events ++ (specs.filter (fun s => isMissingBare i s)).map Event.missingWebModule ∧
    (∀ s fy, isMissingBare i s = true →
      (rewriteSpec p i o s fy).1 = str "/web_modules/" ++ s ++ str ".js") ∧
    ((transformImports (rewriteSpec p i o) specs fx).1).length = specs.length := by
  refine ⟨transformImports_events p i o specs fx, ?_, transformImports_length _ specs fx⟩
  intro s fy hmb
  rw [rewriteSpec_missing_eval hmb]

theorem claim_C4_witness :
    (rewriteSpec true [] (str "/o.js") (str "foo") ⟨[], []⟩).1 =
      str "/web_modules/foo.js" := by
  have h := (claim_C4_missing_module_events true [] (str "/o.js") [] ⟨[], []⟩).2.1
    (str "foo") ⟨[], []⟩ (by decide)
  rw [h]
  decide

/-- C4 counterexample: a script unit importing the missing bare specifier
`foo` twice produces TWO `MISSING_WEB_MODULE` events, not one — the claim's
"exactly once per distinct missing specifier" is false on the code. -/
theorem claim_C4_counterexample :
    ((transformImports (rewriteSpec true [] (str "/out/a.js"))
        [str "foo", str "foo"] ⟨[], []⟩).2).events =
      [Event.missingWebModule (str "foo"), Event.missingWebModule (str "foo")] ∧
    ¬ ((transformImports (rewriteSpec true [] (str "/out/a.js"))
        [str "foo", str "foo"] ⟨[], []⟩).2).events =
      [Event.missingWebModule (str "foo")] := by
  refine ⟨?_, ?_⟩ <;> decide

/-- C8: `"mount src --to dest"` parses to source `<cwd>/src` and destination
`<buildRoot>/dest`; `"mount src"` parses to destination `<buildRoot>/src`;
and a mount script whose first token is not the literal `mount` directive is
a fatal configuration error. -/
theorem claim_C8_mount_parsing (cwd buildRoot id : Str) :
    parseMountScript cwd buildRoot id (str "mount src --to dest") =
      Except.ok (id, cwd ++ str "/src", buildRoot ++ str "/dest") ∧
    parseMountScript cwd buildRoot id (str "mount src") =
      Except.ok (id, cwd ++ str "/src", buildRoot ++ str "/src") ∧
    (∀ cmdStr, (splitWs cmdStr).headD [] ≠ str "mount" →
      ∃ e, parseMountScript cwd buildRoot id cmdStr = Except.error e) := by
  refine ⟨rfl, rfl, ?_⟩
  intro cmdStr h
  unfold parseMountScript
  rw [if_pos h]
  exact ⟨_, rfl⟩

theorem claim_C8_witness :
    parseMountScript (str "/cwd") (str "/build") (str "mount:src")
      (str "mount src --to dest") =
      Except.ok (str "mount:src", str "/cwd/src", str "/build/dest") ∧
    ∃ e, parseMountScript (str "/cwd") (str "/build") (str "mount:src")
      (str "copy src") = Except.error e := by
  refine ⟨?_, ?_⟩
  · have h := (claim_C8_mount_parsing (str "/cwd") (str "/build") (str "mount:src")).1
    rw [h]
    rfl
  · exact (claim_C8_mount_parsing (str "/cwd") (str "/build") (str "mount:src")).2.2
      (str "copy src") (by decide)

/-- C9: a relative or root-relative specifier with no extension is rewritten
to the original plus the bare script extension `.js`, for every path shape,
with no ProxyRequest recorded and no event emitted (the effects `fx` are
returned unchanged). -/
theorem claim_C9_no_extension_append_js (p : Bool) (i : List (Str × Str)) (o spec : Str)
    (fx : RwEffects) (hr : isRelOrAbs spec = true) (hext : extNoDot spec = []) :
    rewriteSpec p i o spec fx = (spec ++ str ".js", fx) :=
  rewriteSpec_noext_eval hr hext

theorem claim_C9_witness :
    rewriteSpec true [] (str "/o.js") (str "./foo") ⟨[], []⟩ =
      (str "./foo.js", ⟨[], []⟩) ∧
    rewriteSpec true [] (str "/o.js") (str "../foo") ⟨[], []⟩ =
      (str "../foo.js", ⟨[], []⟩) ∧
    rewriteSpec true [] (str "/o.js") (str "/foo") ⟨[], []⟩ =
      (str "/foo.js", ⟨[], []⟩) := by
  refine ⟨?_, ?_, ?_⟩
  · rw [claim_C9_no_extension_append_js true [] (str "/o.js") (str "./foo") ⟨[], []⟩
      (by decide) (by decide)]
    decide
  · rw [claim_C9_no_extension_append_js true [] (str "/o.js") (str "../foo") ⟨[], []⟩
      (by decide) (by decide)]
    decide
  · rw [claim_C9_no_extension_append_js true [] (str "/o.js") (str "/foo") ⟨[], []⟩
      (by decide) (by decide)]
    decide

/-- C1 (amended): a plugin worker's thrown error on one file is caught —
logged (a `CONSOLE` error event), reported as `WORKER_COMPLETE` tagged with
the worker's id, the file's output is not produced (written files, built
records and proxy set unchanged) and the loop continues with the remaining
files; but a build worker's non-zero process exit is NOT caught: it
propagates and aborts the whole worker loop. -/
theorem claim_C1_worker_failure (isB : Bool) (imports : List (Str × Str)) (ex : Externals)
    (id cmd dirDisk dirDest f : Str) (fs : List Str) (st : BuildState) (e : Str) :
    (workerFileMatch id (extNoDot f) = true →
      startsWithL id (str "build:") = false →
      startsWithL id (str "plugin:") = true →
      ex.runPlugin cmd f = Except.error e →
      processWorkerFile isB imports ex id cmd dirDisk dirDest f st = Except.ok
        { st with events := st.events ++
            [Event.console (str "error"), Event.workerComplete id true] } ∧
      runWorkerFiles isB imports ex id cmd dirDisk dirDest (f :: fs) st =
        runWorkerFiles isB imports ex id cmd dirDisk dirDest fs
          { st with events := st.events ++
              [Event.console (str "error"), Event.workerComplete id true] }) ∧
    (workerFileMatch id (extNoDot f) = true →
      startsWithL id (str "build:") = true →
      ex.runBuildCmd (replaceFirst (str "$FILE") f cmd) f = ProcResult.fail e →
      runWorkerFiles isB imports ex id cmd dirDisk dirDest (f :: fs) st =
        Except.error e) := by
  constructor
  · intro hm hnb hp he
    have h1 : processWorkerFile isB imports ex id cmd dirDisk dirDest f st = Except.ok
        { st with events := st.events ++
            [Event.console (str "error"), Event.workerComplete id true] } :=
      processWorkerFile_plugin_err hm hnb hp he
    exact ⟨h1, runWorkerFiles_cons_ok h1⟩
  · intro hm hb hf
    have h2 : processWorkerFile isB imports ex id cmd dirDisk dirDest f st =
        Except.error e :=
      processWorkerFile_build_fail hm hb hf
    exact runWorkerFiles_cons_fail h2

theorem claim_C1_witness :
    runWorkerFiles false []
      ⟨fun _ _ => ProcResult.fail (str "boom"), fun _ _ => Except.error (str "perr")⟩
      (str "plugin:ts") (str "mod") (str "/src") (str "/out")
      [str "/src/b.ts"] initState =
      Except.ok { initState with events :=
        [Event.console (str "error"), Event.workerComplete (str "plugin:ts") true] } ∧
    runWorkerFiles false []
      ⟨fun _ _ => ProcResult.fail (str "boom"), fun _ _ => Except.error (str "perr")⟩
      (str "build:ts") (str "cmd") (str "/src") (str "/out")
      [str "/src/a.ts", str "/src/b.ts"] initState = Except.error (str "boom") := by
  constructor
  · have h := (claim_C1_worker_failure false []
      ⟨fun _ _ => ProcResult.fail (str "boom"), fun _ _ => Except.error (str "perr")⟩
      (str "plugin:ts") (str "mod") (str "/src") (str "/out") (str "/src/b.ts") []
      initState (str "perr")).1 (by decide) (by decide) (by decide) rfl
    rw [h.2]
    rfl
  · exact (claim_C1_worker_failure false []
      ⟨fun _ _ => ProcResult.fail (str "boom"), fun _ _ => Except.error (str "perr")⟩
      (str "build:ts") (str "cmd") (str "/src") (str "/out") (str "/src/a.ts")
      [str "/src/b.ts"] initState (str "boom")).2 (by decide) (by decide) rfl

/-- C1 counterexample: the claim says no worker failure on one file aborts
the whole run, but a build worker whose process exits non-zero on the first
of two files makes the worker loop return an error — the second file is
never processed and the failure propagates out of the pipeline. -/
theorem claim_C1_counterexample :
    runWorkerFiles false []
      ⟨fun _ _ => ProcResult.fail (str "boom"), fun _ _ => Except.ok []⟩
      (str "build:ts") (str "cmd") (str "/src") (str "/out")
      [str "/src/a.ts", str "/src/b.ts"] initState = Except.error (str "boom") := by
  rfl

/-- C3: the claim asserts that the mount-level direct-rewrite pass and the
worker passes accumulate exactly one ProxyRequest per distinct resolved
disk path and that the accumulation never fails a file task.  The code
cannot satisfy this: `allProxiedFiles` is declared (`const`, build.ts line
265) only AFTER the mount loop (lines 200-262) has completed, so the
mount-level add at line 242 executes in the temporal dead zone and throws,
failing the mount's file tasks.  This theorem evaluates the model at the
failing input — bundling disabled, one mount whose file `/src/a.js`
imports `./x.svg`: the file task throws the ReferenceError, the mount is
reported failed (`WORKER_MSG` + `WORKER_COMPLETE {error}`) with no
ProxyRequest recorded and no include-set pushed, and the whole pipeline
ends with an empty proxy set and no file written. -/
theorem claim_C3_tdz_mount_failure :
    processMountFile false [] [str "ts"] (fun _ => [str "./x.svg"])
      (str "/src") (str "/out") (str "/src/a.js") initState [] =
      Except.error
        (str "ReferenceError: Cannot access allProxiedFiles before initialization") ∧
    runMountPass false [] [str "ts"] (fun _ => [str "./x.svg"])
      (fun _ => [str "/src/a.js"]) [(str "mount:src", str "/src", str "/out")]
      initState =
      ({ initState with events :=
          [Event.workerUpdate (str "mount:src") (str "RUNNING"),
            Event.workerMsg (str "mount:src") (str "error")
              (str "ReferenceError: Cannot access allProxiedFiles before initialization"),
            Event.workerComplete (str "mount:src") true] }, []) ∧
    (∃ st', runPipeline false []
        ⟨fun _ _ => ProcResult.fail (str "na"), fun _ _ => Except.ok []⟩
        [(str "mount:src", str "mount src"), (str "build:ts", str "cmd")]
        (fun _ => [str "./x.svg"]) (fun _ => [str "/src/a.js"])
        [(str "mount:src", str "/src", str "/out")] = Except.ok st' ∧
      st'.proxied = [] ∧ st'.written = []) := by
  refine ⟨rfl, by decide, ⟨_, rfl, rfl, rfl⟩⟩

/-- C5 (amended): the pre-bundle copy transfers exactly the files NOT in the
`allBuiltFromFiles` set (the filter is literal set-absence); every source
path a build worker transforms with non-empty output is recorded in that
set before the copy (and is therefore skipped by the filter); but a plugin
worker's successfully transformed source path is NOT recorded — the source
never adds to the set in the plugin branch. -/
theorem claim_C5_prebundle_copy_filter (isB : Bool) (imports : List (Str × Str))
    (ex : Externals) (id cmd dirDisk dirDest f : Str) (st : BuildState)
    (code0 : List Str) (stderr : Str) (result : List Str) :
    (∀ builtFrom files p1, p1 ∈ prepareCopyList builtFrom files ↔
      (p1 ∈ files ∧ p1 ∉ builtFrom)) ∧
    (workerFileMatch id (extNoDot f) = true →
      startsWithL id (str "build:") = true →
      ex.runBuildCmd (replaceFirst (str "$FILE") f cmd) f =
        ProcResult.ok (some code0) stderr →
      ∃ st', processWorkerFile isB imports ex id cmd dirDisk dirDest f st =
          Except.ok st' ∧ f ∈ st'.builtFrom ∧ copyFilterFn st'.builtFrom f = false) ∧
    (workerFileMatch id (extNoDot f) = true →
      startsWithL id (str "build:") = false →
      startsWithL id (str "plugin:") = true →
      ex.runPlugin cmd f = Except.ok result →
      ∃ st', processWorkerFile isB imports ex id cmd dirDisk dirDest f st =
          Except.ok st' ∧ st'.builtFrom = st.builtFrom ∧
          st'.written.length = st.written.length + 1) := by
  refine ⟨?_, ?_, ?_⟩
  · intro builtFrom files p1
    unfold prepareCopyList copyFilterFn
    simp [List.mem_filter, List.contains, List.elem_iff]
  · intro hm hb hr
    exact processWorkerFile_build_ok hm hb hr
  · intro hm hnb hp hr
    exact processWorkerFile_plugin_ok hm hnb hp hr

theorem claim_C5_witness :
    ((str "/b/x.js") ∈ prepareCopyList [str "/src/a.ts"] [str "/b/x.js"] ∧
      (str "/src/a.ts") ∉ prepareCopyList [str "/src/a.ts"] [str "/src/a.ts"]) ∧
    (∃ st', processWorkerFile false []
        ⟨fun _ _ => ProcResult.ok (some []) [], fun _ _ => Except.ok []⟩
        (str "build:ts") (str "cmd") (str "/src") (str "/out") (str "/src/a.ts")
        initState = Except.ok st' ∧ (str "/src/a.ts") ∈ st'.builtFrom ∧
        copyFilterFn st'.builtFrom (str "/src/a.ts") = false) ∧
    (∃ st', processWorkerFile false []
        ⟨fun _ _ => ProcResult.ok (some []) [], fun _ _ => Except.ok []⟩
        (str "plugin:css") (str "mod") (str "/src") (str "/out") (str "/src/s.css")
        initState = Except.ok st' ∧ st'.builtFrom = initState.builtFrom ∧
        st'.written.length = initState.written.length + 1) := by
  refine ⟨?_, ?_, ?_⟩
  · constructor
    · exact ((claim_C5_prebundle_copy_filter false []
        ⟨fun _ _ => ProcResult.ok (some []) [], fun _ _ => Except.ok []⟩
        (str "build:ts") (str "cmd") (str "/src") (str "/out") (str "/src/a.ts")
        initState [] [] []).1 [str "/src/a.ts"] [str "/b/x.js"] (str "/b/x.js")).mpr
        (by decide)
    · intro hc
      have h := ((claim_C5_prebundle_copy_filter false []
        ⟨fun _ _ => ProcResult.ok (some []) [], fun _ _ => Except.ok []⟩
        (str "build:ts") (str "cmd") (str "/src") (str "/out") (str "/src/a.ts")
        initState [] [] []).1 [str "/src/a.ts"] [str "/src/a.ts"] (str "/src/a.ts")).mp hc
      exact h.2 (by decide)
  · exact (claim_C5_prebundle_copy_filter false []
      ⟨fun _ _ => ProcResult.ok (some []) [], fun _ _ => Except.ok []⟩
      (str "build:ts") (str "cmd") (str "/src") (str "/out") (str "/src/a.ts")
      initState [] [] []).2.1 (by decide) (by decide) rfl
  · exact (claim_C5_prebundle_copy_filter false []
      ⟨fun _ _ => ProcResult.ok (some []) [], fun _ _ => Except.ok []⟩
      (str "plugin:css") (str "mod") (str "/src") (str "/out") (str "/src/s.css")
      initState [] [] []).2.2 (by decide) (by decide) (by decide) rfl

/-- C5 counterexample: a plugin worker successfully transforms `/src/a.ts`
(one file is written) yet `allBuiltFromFiles` stays empty — the claim's
"every source path successfully transformed by a build worker or a plugin
worker is recorded in that set" is false on the code, whose plugin branch
never adds to the set (build.ts line 331 is only in the build branch). -/
theorem claim_C5_counterexample :
    ∃ st', processWorkerFile false []
        ⟨fun _ _ => ProcResult.fail (str "na"), fun _ _ => Except.ok []⟩
        (str "plugin:ts") (str "mod") (str "/src") (str "/out") (str "/src/a.ts")
        initState = Except.ok st' ∧
      st'.written.length = 1 ∧ st'.builtFrom = [] := by
  exact ⟨_, rfl, rfl, rfl⟩

/-- C6 (amended): a file reaches a build/plugin worker iff the worker's id
contains `:` + the file's extension or `,` + the file's extension as a
SUBSTRING (build.ts line 274) — a condition implied by membership in the
id's declared comma-separated extension list but also satisfied when the
extension is a proper prefix of a declared one; and the mount pass defers a
file to the worker stage iff its extension is in the registry-wide
transform set, copying or rewriting it in place otherwise (so such files
never reach any worker). -/
theorem claim_C6_file_routing (isB : Bool) (imports : List (Str × Str)) (ex : Externals)
    (id cmd dirDisk dirDest f : Str) (st : BuildState) (exts : List Str) (e : Str) :
    (workerFileMatch id (extNoDot f) = false →
      processWorkerFile isB imports ex id cmd dirDisk dirDest f st = Except.ok st) ∧
    (mountFileAction exts dirDisk dirDest f = MountAction.defer ↔ extNoDot f ∈ exts) ∧
    (workerFileMatch id (extNoDot f) = true →
      startsWithL id (str "build:") = true →
      ex.runBuildCmd (replaceFirst (str "$FILE") f cmd) f = ProcResult.fail e →
      processWorkerFile isB imports ex id cmd dirDisk dirDest f st = Except.error e) := by
  refine ⟨?_, mountFileAction_defer_iff exts dirDisk dirDest f, ?_⟩
  · intro hm
    exact processWorkerFile_skip hm
  · intro hm hb hf
    exact processWorkerFile_build_fail hm hb hf

theorem claim_C6_witness :
    processWorkerFile false []
      ⟨fun _ _ => ProcResult.fail (str "handed"), fun _ _ => Except.ok []⟩
      (str "build:css") (str "cmd") (str "/src") (str "/out") (str "/src/a.ts")
      initState = Except.ok initState ∧
    (mountFileAction [str "ts"] (str "/src") (str "/out") (str "/src/a.ts") =
      MountAction.defer ↔ (str "ts") ∈ [str "ts"]) ∧
    processWorkerFile false []
      ⟨fun _ _ => ProcResult.fail (str "handed"), fun _ _ => Except.ok []⟩
      (str "build:ts") (str "cmd") (str "/src") (str "/out") (str "/src/a.ts")
      initState = Except.error (str "handed") := by
  refine ⟨?_, ?_, ?_⟩
  · exact (claim_C6_file_routing false []
      ⟨fun _ _ => ProcResult.fail (str "handed"), fun _ _ => Except.ok []⟩
      (str "build:css") (str "cmd") (str "/src") (str "/out") (str "/src/a.ts")
      initState [str "ts"] (str "handed")).1 (by decide)
  · have h := (claim_C6_file_routing false []
      ⟨fun _ _ => ProcResult.fail (str "handed"), fun _ _ => Except.ok []⟩
      (str "build:ts") (str "cmd") (str "/src") (str "/out") (str "/src/a.ts")
      initState [str "ts"] (str "handed")).2.1
    exact h
  · exact (claim_C6_file_routing false []
      ⟨fun _ _ => ProcResult.fail (str "handed"), fun _ _ => Except.ok []⟩
      (str "build:ts") (str "cmd") (str "/src") (str "/out") (str "/src/a.ts")
      initState [str "ts"] (str "handed")).2.2 (by decide) (by decide) rfl

/-- C6 counterexample: with workers `plugin:ts` and `build:tsx` registered,
the extension `ts` is in the transform set, so `/src/a.ts` is deferred to
the worker stage; the routing guard then hands it to `build:tsx` (the
substring `:ts` occurs in `build:tsx`) even though `ts` is NOT in that
worker's declared extension list `[tsx]` — the claim's "if and only if the
extension is declared in the worker's id suffix" is false on the code. -/
theorem claim_C6_counterexample :
    allBuildExtensions [(str "plugin:ts", str "m"), (str "build:tsx", str "c")] =
      [str "ts", str "tsx"] ∧
    mountFileAction (allBuildExtensions
        [(str "plugin:ts", str "m"), (str "build:tsx", str "c")])
      (str "/src") (str "/out") (str "/src/a.ts") = MountAction.defer ∧
    workerFileMatch (str "build:tsx") (extNoDot (str "/src/a.ts")) = true ∧
    ¬ ((str "ts") ∈ workerExts (str "build:tsx")) ∧
    processWorkerFile false []
      ⟨fun _ _ => ProcResult.fail (str "handed"), fun _ _ => Except.ok []⟩
      (str "build:tsx") (str "c") (str "/src") (str "/out") (str "/src/a.ts")
      initState = Except.error (str "handed") := by
  refine ⟨by decide, by decide, by decide, by decide, by rfl⟩

/-- C7: for every relative or root-relative specifier whose extension has a
registered remap, the rewriter substitutes exactly that suffix (no proxy is
recorded, since every remap target is the bare script extension), the
rewritten specifier's extension equals the remapped extension, and the
rewrite is idempotent: running the rewriter on the specifier it just
produced returns it unchanged with the effects untouched. -/
theorem claim_C7_remap_and_idempotence (proxyEnabled : Bool) (imports : List (Str × Str)) (outPath spec : Str)
    (fx : RwEffects) (r : Str)
    (hrel : isRelOrAbs spec = true)
    (hmap : srcFileExtensionMapping (extNoDot spec) = some r) :
    rewriteSpec proxyEnabled imports outPath spec fx
      = (replaceSuffix spec (extNoDot spec) r, fx) ∧
    extNoDot (replaceSuffix spec (extNoDot spec) r) = r ∧
    rewriteSpec proxyEnabled imports outPath (replaceSuffix spec (extNoDot spec) r) fx
      = (replaceSuffix spec (extNoDot spec) r, fx) := by
  have hjs : r = str "js" := mapping_target_js hmap
  subst hjs
  have hne : extNoDot spec ≠ [] := mapping_source_ne_nil hmap
  have hext : extnameChars spec = '.' :: extNoDot spec := extnameChars_of_extNoDot hne
  set e := extNoDot spec with he
  obtain ⟨u, hu, hech, hw⟩ := extnameChars_structure hext
  have hh := relOrAbs_not_http hrel
  have hrepl : replaceSuffix spec e (str "js") = u ++ '.' :: str "js" := by
    conv_lhs => rw [hu]
    exact replaceSuffix_of_append u e (str "js")
  have hg : str "js" ≠ ([] : Str) := by decide
  have hgch : ∀ c ∈ str "js", c ≠ '.' ∧ c ≠ '/' := by decide
  have hext1 : extNoDot (u ++ '.' :: str "js") = str "js" := by
    unfold extNoDot
    rw [extnameChars_dot_append hg hgch hw]
    simp
  have hrel1 : isRelOrAbs (u ++ '.' :: str "js") = true := by
    have hrelu : isRelOrAbs (u ++ '.' :: e) = true := hu ▸ hrel
    exact isRelOrAbs_stable ('.' :: str "js") hech hrelu
  refine ⟨?_, ?_, ?_⟩
  · exact rewriteSpec_remap_eval hh hrel hne hmap
  · rw [hrepl]; exact hext1
  · rw [hrepl]
    exact rewriteSpec_js_eval (relOrAbs_not_http hrel1) hrel1 hext1

theorem claim_C7_witness :
    rewriteSpec true [] (str "/out/a.js") (str "./x.ts") ⟨[], []⟩ =
      (str "./x.js", ⟨[], []⟩) ∧
    extNoDot (str "./x.js") = str "js" ∧
    rewriteSpec true [] (str "/out/a.js") (str "./x.js") ⟨[], []⟩ =
      (str "./x.js", ⟨[], []⟩) := by
  have h := claim_C7_remap_and_idempotence true [] (str "/out/a.js") (str "./x.ts")
    ⟨[], []⟩ (str "js") (by decide) (by decide)
  have hrepl : replaceSuffix (str "./x.ts") (extNoDot (str "./x.ts")) (str "js") =
      str "./x.js" := by decide
  rw [hrepl] at h
  exact h

/-- C10: for every invocation with a non-empty script registry and
well-formed mount commands, the trace of `command` begins with deleting and
recreating the final output directory (and the intermediate build directory
when distinct) — effects that are not file enumerations, copies or writes —
so every enumeration and write in the trace comes after the cleanup. -/
theorem claim_C10_cleanup_first (scripts : List (Str × Str))
    (cwd outDir : Str) (isBundled : Bool) (filesOf : Str → List Str)
    (ds : List (Str × Str × Str))
    (h1 : scripts ≠ [])
    (h2 : checkMountScripts scripts = Except.ok ())
    (h3 : mountDirDetailsList cwd (if isBundled then cwd ++ str "/.build" else outDir)
      scripts = Except.ok ds) :
    ∃ rest, commandEffects scripts cwd outDir isBundled filesOf =
        Except.ok (cleanupEffects outDir
          (if isBundled then cwd ++ str "/.build" else outDir) ++ rest) ∧
      ∀ e ∈ cleanupEffects outDir (if isBundled then cwd ++ str "/.build" else outDir),
        isFileEff e = false := by
  refine ⟨lintEffects scripts ++
    mountPassEffects (allBuildExtensions scripts) filesOf ds, ?_, ?_⟩
  · unfold commandEffects
    rw [if_neg h1, h2]
    dsimp only
    rw [h3]
    dsimp only
    rw [List.append_assoc]
  · intro e he
    unfold cleanupEffects at he
    rcases List.mem_append.mp he with hA | hB
    · simp only [List.mem_cons, List.mem_singleton] at hA
      rcases hA with rfl | rfl | hA
      · rfl
      · rfl
      · simp at hA
    · by_cases hc : outDir ≠ (if isBundled = true then cwd ++ str "/.build" else outDir)
      · rw [if_pos hc] at hB
        simp only [List.mem_cons, List.mem_singleton] at hB
        rcases hB with rfl | rfl | hB
        · rfl
        · rfl
        · simp at hB
      · rw [if_neg hc] at hB
        simp at hB

theorem claim_C10_witness :
    ∃ rest, commandEffects [(str "mount:src", str "mount src")]
        (str "/cwd") (str "/out") false (fun _ => [str "/cwd/src/a.txt"]) =
        Except.ok (cleanupEffects (str "/out")
          (if false then str "/cwd" ++ str "/.build" else str "/out") ++ rest) ∧
      ∀ e ∈ cleanupEffects (str "/out")
          (if false then str "/cwd" ++ str "/.build" else str "/out"),
        isFileEff e = false := by
  exact claim_C10_cleanup_first [(str "mount:src", str "mount src")]
    (str "/cwd") (str "/out") false (fun _ => [str "/cwd/src/a.txt"])
    [(str "mount:src", str "/cwd/src", str "/out/src")]
    (by decide) rfl rfl
